import Mathlib

/-!
Verification of the Telegram transaction-flow conversation engine
(`apps/bot/handlers/transaction_flow.py` and `apps/bot/api_client.py`).

This is a shallow embedding: the Python helpers and handlers are translated
into executable Lean definitions (dictionaries become structures, the
conversation handlers become pure functions from session state and the
incoming event to an outcome record listing backend calls, user replies,
the resulting session and the next state).  Python floats are modelled
exactly as IEEE-754 binary64 values represented by rational pairs of
natural numbers, with round-to-nearest-even; machine behaviour at the one
floating-point site of the program is reproduced bit-for-bit.
-/

namespace Kuberan

/-! ## Python string primitives (over `List Char`) -/

/-- Python `str.split()`: split on runs of whitespace, dropping empty tokens. -/
def pyWords (l : List Char) : List (List Char) :=
  (l.splitOnP (·.isWhitespace)).filter (fun w => !w.isEmpty)

/-- Python `' '.join(words)`. -/
def pyJoinWords (ws : List (List Char)) : List Char :=
  List.intercalate [' '] ws

/-- Python `str.strip()`: drop leading and trailing whitespace. -/
def pyStripChars (l : List Char) : List Char :=
  ((l.dropWhile Char.isWhitespace).reverse.dropWhile Char.isWhitespace).reverse

/-- Python `str.lower()` (ASCII model). -/
def pyLower (s : String) : String :=
  String.mk (s.data.map Char.toLower)

/-- Python `str.upper()` (ASCII model). -/
def pyUpper (s : String) : String :=
  String.mk (s.data.map Char.toUpper)

/-- Python `str.strip()` on `String`. -/
def pyStrip (s : String) : String :=
  String.mk (pyStripChars s.data)

/-- Python `str.isalpha()`: nonempty and every character alphabetic (ASCII model). -/
def pyIsAlpha (s : String) : Bool :=
  !s.data.isEmpty && s.data.all Char.isAlpha

/-- Python `len(s)` as a character count. -/
def pyLen (s : String) : Nat :=
  s.data.length

/-- One step of Python `str.title()`: the flag records whether the previous
character was alphabetic. -/
def pyTitleAux : Bool → List Char → List Char
  | _, [] => []
  | prevAlpha, c :: cs =>
    (if c.isAlpha then (if prevAlpha then c.toLower else c.toUpper) else c)
      :: pyTitleAux c.isAlpha cs

/-- Python `str.title()` (ASCII model): first letter of each alphabetic run
uppercased, the rest lowercased. -/
def pyTitle (s : String) : String :=
  String.mk (pyTitleAux false s.data)

/-! ## Exact IEEE-754 binary64 model

A nonnegative Python float is represented by a pair `(a, b)` of naturals
denoting the exact rational `a / b`; rounding to binary64 produces pairs
whose value is exactly representable (53-bit significand).  All arithmetic
is on naturals, so every result is kernel-computable. -/

/-- Fuelled base-two logarithm, `log2Fuel fuel n = Nat.log2 n` for `fuel ≥ n`.
Structural recursion keeps it kernel-computable. -/
def log2Fuel : Nat → Nat → Nat
  | 0, _ => 0
  | fuel + 1, n => if n ≥ 2 then log2Fuel fuel (n / 2) + 1 else 0

/-- Base-two logarithm (floor), kernel-computable. -/
def natLog2 (n : Nat) : Nat := log2Fuel n n

/-- Round the rational `a / b` (with `b ≠ 0`) to the nearest natural,
ties to even. -/
def rnEven (a b : Nat) : Nat :=
  let q := a / b
  let r := a % b
  if 2 * r < b then q
  else if b < 2 * r then q + 1
  else if q % 2 = 0 then q else q + 1

/-- Floor of the base-two logarithm of the positive rational `a / b`. -/
def floorLog2Rat (a b : Nat) : Int :=
  let t : Int := (natLog2 a : Int) - (natLog2 b : Int)
  let geTest : Bool :=
    if 0 ≤ t then decide (2 ^ t.toNat * b ≤ a) else decide (b ≤ 2 ^ (-t).toNat * a)
  if geTest then t else t - 1

/-- Round the nonnegative exact rational `a / b` to the nearest IEEE-754
binary64 value (round-to-nearest, ties-to-even), returned as an exact
rational pair.  Normal range only, which covers every value this program
manipulates. -/
def roundDouble (a b : Nat) : Nat × Nat :=
  if a = 0 then (0, 1)
  else
    let e := floorLog2Rat a b
    let s : Int := 52 - e
    if 0 ≤ s then
      (rnEven (a * 2 ^ s.toNat) b, 2 ^ s.toNat)
    else
      (rnEven a (b * 2 ^ (-s).toNat) * 2 ^ (-s).toNat, 1)

/-- Python float multiplication `x * 100` of a binary64 value `p`: the exact
product rounded back to binary64. -/
def pyMul100 (p : Nat × Nat) : Nat × Nat :=
  roundDouble (p.1 * 100) p.2

/-- Python `int(x)` for a nonnegative float: truncation toward zero. -/
def pyIntTrunc (p : Nat × Nat) : Nat :=
  p.1 / p.2

/-- Python float truthiness: `0.0` is falsy. -/
def pyFloatTruthy (p : Nat × Nat) : Bool :=
  p.1 ≠ 0

/-! ## The amount-plus-description parser

`_parse_amount_description` applies `re.match` with pattern
`(\d+(?:\.\d\x7b1,2\x7d)?)\s*(.*)` to the stripped text: a leading run of
digits, optionally a dot followed by greedily one or two digits, then
whitespace, then the description up to the end of the first line.  The
numeric group is converted with `float(...)`. -/

/-- Decimal digit characters to a natural number. -/
def digitsToNat (l : List Char) : Nat :=
  l.foldl (fun acc c => acc * 10 + (c.toNat - '0'.toNat)) 0

/-- The regex front end of `_parse_amount_description`: returns the matched
numeric value as an exact rational pair `(numerator, 10 ^ fracDigits)`
together with the description remainder, or `none` when the stripped text
does not start with a digit. -/
def matchAmount (l : List Char) : Option ((Nat × Nat) × List Char) :=
  let t := pyStripChars l
  let ds := t.takeWhile Char.isDigit
  if ds.isEmpty then none
  else
    let rest1 := t.dropWhile Char.isDigit
    let (intPart, fracPart, rest2) :=
      match rest1 with
      | '.' :: r =>
        let fs := (r.takeWhile Char.isDigit).take 2
        if fs.isEmpty then (ds, ([] : List Char), rest1)
        else (ds, fs, r.drop fs.length)
      | _ => (ds, ([] : List Char), rest1)
    let value := (digitsToNat (intPart ++ fracPart), 10 ^ fracPart.length)
    let desc :=
      pyStripChars ((rest2.dropWhile Char.isWhitespace).takeWhile (fun c => c ≠ '\n'))
    some (value, desc)

/-- `_parse_amount_description`: the numeric group converted by `float(...)`
(binary64 rounding), plus the stripped description.  `none` models the
`(None, "")` return. -/
def parse_amount_description (text : String) : Option (Nat × Nat) × String :=
  match matchAmount text.data with
  | none => (none, "")
  | some (value, desc) => (some (roundDouble value.1 value.2), String.mk desc)

/-- The minor-units conversion performed by the callers of
`_parse_amount_description`: `int(amount * 100)`. -/
def amountToMinorUnits (amount : Nat × Nat) : Nat :=
  pyIntTrunc (pyMul100 amount)

/-- Modelled from the spec: the specified minor-units conversion, rounding
the exact decimal value times 100 to the nearest integer. -/
def specMinorUnits (v : ℚ) : ℤ :=
  round (v * 100)

/-! ## Remote entities (account and category dictionaries) -/

/-- An account dictionary.  `is_active = none` models an absent key, read by
the source as `a.get(\x7b..\x7d)`-style default `True`. -/
structure Account where
  id : String
  name : String
  type : String
  is_active : Option Bool
deriving DecidableEq, Repr

/-- Python truthiness of `a.get('is_active', True)`. -/
def accountActive (a : Account) : Bool :=
  a.is_active.getD true

/-- Eligibility test from `_get_default_account` and `_build_account_keyboard`:
type in `('cash', 'credit_card', 'debt')`. -/
def isEligible (a : Account) : Bool :=
  a.type == "cash" || a.type == "credit_card" || a.type == "debt"

/-- A category dictionary.  `parent_id = none` models an absent or `None`
key; `icon = ""` models an absent icon, matching the defaults used by
`c.get('parent_id')` and `c.get('icon', '')`. -/
structure Category where
  id : String
  name : String
  type : String
  parent_id : Option String
  icon : String
deriving DecidableEq, Repr

/-- Python truthiness of `c.get('parent_id')`: `None` and the empty string
are falsy. -/
def hasParent (c : Category) : Bool :=
  c.parent_id.getD "" != ""

/-! ## `_extract_account_and_category` -/

/-- Case-insensitive full-token name comparison, as in
`acc.get('name', '').lower() == words[-1].lower()`. -/
def nameMatches (name : String) (tok : List Char) : Bool :=
  name.data.map Char.toLower == tok.map Char.toLower

/-- `_extract_account_and_category`: match the last word against account
names, then the new last word of the shortened text against category names,
each by first match in list order (the `for ... break` loops), and return
the rejoined remaining words with the matches. -/
def extract_account_and_category (text : String) (accounts : List Account)
    (categories : List Category) : String × Option Account × Option Category :=
  if text = "" then (text, none, none)
  else
    let words0 := pyWords text.data
    let (words1, matchedAccount) :=
      match words0.getLast? with
      | none => (words0, (none : Option Account))
      | some last =>
        match accounts.find? (fun (acc : Account) => nameMatches acc.name last) with
        | some acc => (words0.dropLast, some acc)
        | none => (words0, none)
    let (words2, matchedCategory) :=
      match words1.getLast? with
      | none => (words1, (none : Option Category))
      | some last =>
        match categories.find? (fun (cat : Category) => nameMatches cat.name last) with
        | some cat => (words1.dropLast, some cat)
        | none => (words1, none)
    (String.mk (pyJoinWords words2), matchedAccount, matchedCategory)

/-! ## `_get_default_account` -/

/-- `_get_default_account`: first active eligible account, else first
eligible account, else `None`. -/
def get_default_account (accounts : List Account) : Option Account :=
  let eligible := accounts.filter isEligible
  match eligible.find? accountActive with
  | some acc => some acc
  | none => eligible.head?

/-! ## `_order_categories_hierarchically` and the category keyboard -/

/-- `_order_categories_hierarchically`: parents (falsy `parent_id`) in fetch
order, each immediately followed by its children in fetch order (the
insertion-ordered `children_map`), then every category whose id was not
emitted, in fetch order. -/
def order_categories_hierarchically (categories : List Category) : List Category :=
  let parents := categories.filter (fun c => !hasParent c)
  let ordered := parents.flatMap (fun p =>
    p :: categories.filter (fun c => hasParent c && c.parent_id.getD "" == p.id))
  let seen := ordered.map (·.id)
  ordered ++ categories.filter (fun c => !seen.contains c.id)

/-- An inline keyboard button: label plus callback payload. -/
structure Button where
  label : String
  callback_data : String
deriving DecidableEq, Repr

/-- `_category_button_label`: icon prefix, or two-space indent for children. -/
def category_button_label (cat : Category) : String :=
  if cat.icon ≠ "" then cat.icon ++ " " ++ cat.name
  else if hasParent cat then "  " ++ cat.name
  else cat.name

/-- Row chunking of `for i in range(0, len(page_cats), 3)`. -/
def chunks3 {α : Type} : List α → List (List α)
  | [] => []
  | [a] => [[a]]
  | [a, b] => [[a, b]]
  | a :: b :: c :: rest => [a, b, c] :: chunks3 rest

/-- The category cell button for `cat`. -/
def categoryButton (cat : Category) : Button :=
  Button.mk (category_button_label cat) ("cat:" ++ cat.id)

/-- `_build_category_keyboard`: page slice of the hierarchical order laid
out three per row, a navigation row when present, and the fixed
new-category and skip actions. -/
def build_category_keyboard (categories : List Category) (page : Nat) : List (List Button) :=
  let ordered := order_categories_hierarchically categories
  let start := page * 9
  let pageCats := (ordered.drop start).take 9
  let rows := chunks3 (pageCats.map categoryButton)
  let navRow :=
    (if page > 0 then [Button.mk "< Prev" ("cat:page:" ++ toString (page - 1))] else [])
      ++ (if start + 9 < ordered.length then
            [Button.mk "Next >" ("cat:page:" ++ toString (page + 1))] else [])
  (rows ++ (if navRow.isEmpty then [] else [navRow]))
    ++ [[Button.mk "+ New" "cat:new", Button.mk "Skip" "cat:none"]]

/-! ## Session working memory and conversation steps

Each handler is embedded as a pure function from the optional session and
the inbound event to a `StepResult` carrying the backend calls issued, the
replies shown to the user (abstracted to tags, since message formatting is
out of scope), the resulting session, and the next conversation state.
Dictionary keys that the source only assigns later in the flow (`type`,
`amount`, `description`) are modelled as fields holding placeholder values
until assigned. -/

/-- The resolved user returned by `resolve_user`; `default_currency = none`
models an absent key, read with default `'MYR'`. -/
structure UserData where
  user_id : String
  auth_token : String
  default_currency : Option String
deriving DecidableEq, Repr

/-- Transaction-flow working memory (`context.user_data['txn']`). -/
structure TxnSession where
  accounts : List Account
  categories : List Category
  account_id : String
  account_name : String
  category_id : Option String
  category_name : Option String
  category_icon : String
  currency : String
  type : String
  amount : Nat
  description : String
deriving DecidableEq, Repr

/-- Conversation states of the transaction flow, plus the terminal `ENDED`
(`ConversationHandler.END`). -/
inductive ConvState where
  | AMOUNT | CATEGORY | CONFIRM | ACCOUNT | NEW_CATEGORY | NEW_ACCOUNT
  | NEW_CAT_PARENT | NEW_CAT_ICON | CURRENCY | NEW_CURRENCY | ENDED
deriving DecidableEq, Repr

/-- Outbound replies, abstracted to tags (exact text is out of scope). -/
inductive Reply where
  | notLinked
  | noEligibleAccount
  | askAmount
  | invalidAmount
  | selectCategory
  | confirmCard
  | successSummary
  | cancelled
  | sessionExpired
  | somethingWentWrong
  | selectAccount
  | selectCurrency
  | invalidCurrency
deriving DecidableEq, Repr

/-- The payload of `user_client.create_transaction(transaction_data)`. -/
structure TransactionData where
  type : String
  account_id : String
  amount : Nat
  description : String
  category_id : Option String
deriving DecidableEq, Repr

/-- Result of one handler invocation. -/
structure StepResult where
  calls : List TransactionData
  replies : List Reply
  session : Option TxnSession
  state : ConvState
deriving DecidableEq, Repr

/-- `_resolve_user_and_setup`: resolve the user, require a default account,
and initialise the working memory; the session is stored only on success. -/
def resolve_user_and_setup (user : Option UserData) (accounts : List Account)
    (categories : List Category) : Except Reply TxnSession :=
  match user with
  | none => .error .notLinked
  | some u =>
    match get_default_account accounts with
    | none => .error .noEligibleAccount
    | some da =>
      .ok { accounts := accounts, categories := categories,
            account_id := da.id, account_name := da.name,
            category_id := none, category_name := none, category_icon := "",
            currency := u.default_currency.getD "MYR",
            type := "", amount := 0, description := "" }

/-- `entry_point`: set up the session; with truthy parsed trailing text take
the quick path (smart match, then confirm or category selection), otherwise
prompt for the amount. -/
def entry_point (user : Option UserData) (accounts : List Account)
    (categories : List Category) (txnType : String) (argsText : String) : StepResult :=
  match resolve_user_and_setup user accounts categories with
  | .error e => ⟨[], [e], none, .ENDED⟩
  | .ok s0 =>
    let txn0 := { s0 with type := txnType }
    let (amountOpt, description0) := parse_amount_description argsText
    match amountOpt with
    | some amount =>
      if pyFloatTruthy amount then
        let (description, mAcc, mCat) :=
          extract_account_and_category description0 txn0.accounts txn0.categories
        let txn1 :=
          match mAcc with
          | some acc => { txn0 with account_id := acc.id, account_name := acc.name }
          | none => txn0
        let txn2 :=
          match mCat with
          | some cat =>
            { txn1 with
                category_id := some cat.id,
                category_name := some cat.name,
                category_icon := cat.icon }
          | none => txn1
        let txn3 :=
          { txn2 with
              amount := amountToMinorUnits amount,
              description := description }
        if mCat.isSome || txn3.categories.isEmpty then
          ⟨[], [.confirmCard], some txn3, .CONFIRM⟩
        else
          ⟨[], [.selectCategory], some txn3, .CATEGORY⟩
      else ⟨[], [.askAmount], some txn0, .AMOUNT⟩
    | none => ⟨[], [.askAmount], some txn0, .AMOUNT⟩

/-- `receive_amount`: reject a falsy parse (`if not amount:`) by re-prompting
in the same state, otherwise smart-match and proceed as in the quick path. -/
def receive_amount (sess : Option TxnSession) (text : String) : StepResult :=
  match sess with
  | none => ⟨[], [.somethingWentWrong], none, .ENDED⟩
  | some txn =>
    let (amountOpt, description0) := parse_amount_description text
    match amountOpt with
    | none => ⟨[], [.invalidAmount], some txn, .AMOUNT⟩
    | some amount =>
      if !pyFloatTruthy amount then ⟨[], [.invalidAmount], some txn, .AMOUNT⟩
      else
        let (description, mAcc, mCat) :=
          extract_account_and_category description0 txn.accounts txn.categories
        let txn1 :=
          match mAcc with
          | some acc => { txn with account_id := acc.id, account_name := acc.name }
          | none => txn
        let txn2 :=
          match mCat with
          | some cat =>
            { txn1 with
                category_id := some cat.id,
                category_name := some cat.name,
                category_icon := cat.icon }
          | none => txn1
        let txn3 :=
          { txn2 with
              amount := amountToMinorUnits amount,
              description := description }
        if mCat.isSome || txn3.categories.isEmpty then
          ⟨[], [.confirmCard], some txn3, .CONFIRM⟩
        else
          ⟨[], [.selectCategory], some txn3, .CATEGORY⟩

/-- `handle_confirm_callback`: the `Confirm`-state dispatch.  `backendOk`
models whether `create_transaction` returns or raises; when it raises,
nothing after the call runs (no reply, no session pop) and the conversation
state is left unchanged by the framework. -/
def handle_confirm_callback (sess : Option TxnSession) (payload : String)
    (backendOk : Bool) : StepResult :=
  match sess with
  | none => ⟨[], [.sessionExpired], none, .ENDED⟩
  | some txn =>
    if payload = "txn:cancel" then ⟨[], [.cancelled], none, .ENDED⟩
    else if payload = "txn:chg_cat" then ⟨[], [.selectCategory], some txn, .CATEGORY⟩
    else if payload = "txn:chg_acc" then ⟨[], [.selectAccount], some txn, .ACCOUNT⟩
    else if payload = "txn:chg_ccy" then ⟨[], [.selectCurrency], some txn, .CURRENCY⟩
    else if payload = "txn:confirm" then
      let transactionData : TransactionData :=
        { type := txn.type, account_id := txn.account_id, amount := txn.amount,
          description := if txn.description = "" then pyTitle txn.type
                         else txn.description,
          category_id := if txn.category_id.getD "" ≠ "" then txn.category_id
                         else none }
      if backendOk then ⟨[transactionData], [.successSummary], none, .ENDED⟩
      else ⟨[transactionData], [], some txn, .CONFIRM⟩
    else ⟨[], [], some txn, .CONFIRM⟩

/-- `receive_new_currency`: strip, uppercase, require exactly three
alphabetic characters; on failure re-prompt in the same state, on success
store the code and return to `Confirm`. -/
def receive_new_currency (sess : Option TxnSession) (text : String) : StepResult :=
  match sess with
  | none => ⟨[], [.somethingWentWrong], none, .ENDED⟩
  | some txn =>
    let currency := pyUpper (pyStrip text)
    if pyLen currency ≠ 3 || !pyIsAlpha currency then
      ⟨[], [.invalidCurrency], some txn, .NEW_CURRENCY⟩
    else
      ⟨[], [.confirmCard], some { txn with currency := currency }, .CONFIRM⟩

/-! ## Spec-side ordering (for the refinement claim about category ordering) -/

/-- Modelled from the spec: iterate parent categories in original fetch
order; immediately after each parent, emit its children in original fetch
order; categories whose declared parent is absent from the set are appended
at the end in original order. -/
def specOrderCategories (categories : List Category) : List Category :=
  let ids := categories.map (·.id)
  ((categories.filter (fun c => c.parent_id.isNone)).flatMap (fun p =>
      p :: categories.filter (fun c => c.parent_id == some p.id)))
    ++ categories.filter (fun c =>
        match c.parent_id with
        | some pid => !ids.contains pid
        | none => false)

/-! ## Sample data for concrete scenarios, witnesses and counterexamples -/

/-- A cash account named Wallet. -/
def walletAccount : Account := ⟨"acc-1", "Wallet", "cash", some true⟩

/-- A cash account named A. -/
def accountNamedA : Account := ⟨"acc-2", "A", "cash", none⟩

/-- A cash account named B. -/
def accountNamedB : Account := ⟨"acc-3", "B", "cash", none⟩

/-- An expense category named Food. -/
def foodCategory : Category := ⟨"cat-1", "Food", "expense", none, ""⟩

/-- A child category of the Food category. -/
def childCategory : Category := ⟨"cat-2", "Groceries", "expense", some "cat-1", ""⟩

/-- A category whose declared parent is absent from the fetched set. -/
def orphanCategory : Category := ⟨"cat-3", "Misc", "expense", some "cat-9", ""⟩

/-- A resolved sample user. -/
def sampleUser : UserData := ⟨"user-1", "token-1", some "MYR"⟩

/-- A sample transaction-flow session sitting at the Confirm state. -/
def sampleSession : TxnSession :=
  { accounts := [walletAccount], categories := [foodCategory],
    account_id := "acc-1", account_name := "Wallet",
    category_id := none, category_name := none, category_icon := "",
    currency := "MYR", type := "expense", amount := 5000, description := "Coffee" }

/-! ## Theorems -/

/-- Finding in a filtered list is finding with the conjoined predicate. -/
theorem find?_filter {α : Type} (l : List α) (q p : α → Bool) :
    (l.filter q).find? p = l.find? (fun x => q x && p x) := by
  induction l with
  | nil => rfl
  | cons a l ih =>
    by_cases hq : q a
    · by_cases hp : p a
      · simp [List.filter_cons, hq, hp]
      · simp [List.filter_cons, hq, hp, ih]
    · simp [List.filter_cons, hq, ih]

/-- Flattening the three-per-row chunking recovers the original list. -/
theorem chunks3_flatten {α : Type} : ∀ l : List α, (chunks3 l).flatten = l := by
  have key : ∀ (n : Nat) (l : List α), l.length ≤ n → (chunks3 l).flatten = l := by
    intro n
    induction n with
    | zero =>
      intro l h
      rcases l with _ | ⟨a, l⟩
      · rfl
      · simp at h
    | succ n ih =>
      intro l h
      rcases l with _ | ⟨a, _ | ⟨b, _ | ⟨c, r⟩⟩⟩
      · rfl
      · rfl
      · rfl
      · have hr : r.length ≤ n := by
          simp only [List.length_cons] at h
          omega
        simp [chunks3, ih r hr]
  exact fun l => key l.length l (Nat.le_refl _)

/-- Every row of the three-per-row chunking has between one and three cells. -/
theorem chunks3_rows {α : Type} :
    ∀ l : List α, ∀ row ∈ chunks3 l, 0 < row.length ∧ row.length ≤ 3 := by
  have key : ∀ (n : Nat) (l : List α), l.length ≤ n →
      ∀ row ∈ chunks3 l, 0 < row.length ∧ row.length ≤ 3 := by
    intro n
    induction n with
    | zero =>
      intro l h row hrow
      rcases l with _ | ⟨a, l⟩
      · simp [chunks3] at hrow
      · simp at h
    | succ n ih =>
      intro l h row hrow
      rcases l with _ | ⟨a, _ | ⟨b, _ | ⟨c, r⟩⟩⟩
      · simp [chunks3] at hrow
      · simp [chunks3] at hrow
        subst hrow
        simp
      · simp [chunks3] at hrow
        subst hrow
        simp
      · simp only [chunks3, List.mem_cons] at hrow
        rcases hrow with rfl | hrow
        · simp
        · have hr : r.length ≤ n := by
            simp only [List.length_cons] at h
            omega
          exact ih r hr row hrow
  exact fun l => key l.length l (Nat.le_refl _)

/-- With an empty cached category list the matcher never matches a category. -/
theorem extract_category_nil (text : String) (accounts : List Account) :
    (extract_account_and_category text accounts []).2.2 = none := by
  by_cases ht : text = ""
  · simp [extract_account_and_category, ht]
  · simp only [extract_account_and_category, if_neg ht]
    cases h0 : (pyWords text.data).getLast? with
    | none => simp [h0]
    | some last =>
      cases h1 : List.find? (fun (acc : Account) => nameMatches acc.name last) accounts with
      | none => simp [h0, h1]
      | some acc =>
        cases h2 : (pyWords text.data).dropLast.getLast? with
        | none => simp [h0, h1, h2]
        | some last2 => simp [h0, h1, h2]

/-- C2: at input string 0.29 the embedded pipeline (regex parse, `float(...)`
conversion, `int(amount * 100)`) yields 28 minor units, while the specified
conversion `round(value * 100)` of the exact decimal value 29/100 yields 29:
the source truncates the binary64 product 28.999999999999996 instead of
rounding it. -/
theorem amount_truncation_bug_at_0_29 :
    (parse_amount_description "0.29").1.map amountToMinorUnits = some 28 ∧
    specMinorUnits (29 / 100) = 29 :=
  ⟨by decide, by norm_num [specMinorUnits]⟩

/-- C1: from the Confirm state, the confirm action issues exactly one
transaction-creation call carrying the type, account id, minor-units amount,
the description with title-cased-type fallback when empty, and the category
id only when one was selected; it destroys the session, so an immediately
following confirm press finds no session, replies session-expired, and
issues no backend call. -/
theorem confirm_commits_exactly_once (txn : TxnSession) :
    (handle_confirm_callback (some txn) "txn:confirm" true).calls =
      [{ type := txn.type, account_id := txn.account_id, amount := txn.amount,
         description := if txn.description = "" then pyTitle txn.type
                        else txn.description,
         category_id := if txn.category_id.getD "" ≠ "" then txn.category_id
                        else none }] ∧
    (handle_confirm_callback (some txn) "txn:confirm" true).replies =
      [.successSummary] ∧
    (handle_confirm_callback (some txn) "txn:confirm" true).session = none ∧
    (handle_confirm_callback (some txn) "txn:confirm" true).state = .ENDED ∧
    handle_confirm_callback
        (handle_confirm_callback (some txn) "txn:confirm" true).session
        "txn:confirm" true =
      ⟨[], [.sessionExpired], none, .ENDED⟩ := by
  simp [handle_confirm_callback]

/-- C9 (amended): when the transaction-creation call raises during the
commit step, exactly one call was made, the session is preserved unchanged
and the conversation stays at Confirm, so pressing confirm again with a
working backend commits; however no reply at all is sent on the failing
press (there is no generic failure message). -/
theorem failed_commit_preserves_session_for_retry (txn : TxnSession) :
    (handle_confirm_callback (some txn) "txn:confirm" false).calls.length = 1 ∧
    (handle_confirm_callback (some txn) "txn:confirm" false).session = some txn ∧
    (handle_confirm_callback (some txn) "txn:confirm" false).state = .CONFIRM ∧
    (handle_confirm_callback (some txn) "txn:confirm" false).replies = [] ∧
    (handle_confirm_callback (some txn) "txn:confirm" true).calls.length = 1 ∧
    (handle_confirm_callback (some txn) "txn:confirm" true).session = none := by
  simp [handle_confirm_callback]

/-- C9 counterexample: at a concrete session whose commit raises, the
handler sends no reply at all, refuting the assertion that the user is
shown a generic failure message (while the session is indeed preserved). -/
theorem failed_commit_shows_no_message :
    (handle_confirm_callback (some sampleSession) "txn:confirm" false).replies = [] ∧
    (handle_confirm_callback (some sampleSession) "txn:confirm" false).session =
      some sampleSession := by
  decide

/-- C8: a failed amount parse re-prompts in the amount state with the
session untouched; a currency code that is not exactly three alphabetic
characters after trimming and uppercasing re-prompts in the same state with
the session untouched; jpy and JPY are accepted and stored uppercase, jp is
rejected. -/
theorem invalid_inputs_reprompt_without_mutation :
    (∀ (txn : TxnSession) (text : String),
        (parse_amount_description text).1 = none →
        receive_amount (some txn) text = ⟨[], [.invalidAmount], some txn, .AMOUNT⟩) ∧
    (∀ (txn : TxnSession) (text : String),
        ¬ (pyLen (pyUpper (pyStrip text)) = 3 ∧
            pyIsAlpha (pyUpper (pyStrip text)) = true) →
        receive_new_currency (some txn) text =
          ⟨[], [.invalidCurrency], some txn, .NEW_CURRENCY⟩) ∧
    (∀ txn : TxnSession,
        receive_new_currency (some txn) "jpy" =
          ⟨[], [.confirmCard], some { txn with currency := "JPY" }, .CONFIRM⟩) ∧
    (∀ txn : TxnSession,
        receive_new_currency (some txn) "JPY" =
          ⟨[], [.confirmCard], some { txn with currency := "JPY" }, .CONFIRM⟩) ∧
    (∀ txn : TxnSession,
        receive_new_currency (some txn) "jp" =
          ⟨[], [.invalidCurrency], some txn, .NEW_CURRENCY⟩) := by
  refine ⟨?_, ?_, ?_, ?_, ?_⟩
  · intro txn text h
    unfold receive_amount
    rcases hp : parse_amount_description text with ⟨o, d⟩
    rw [hp] at h
    have ho : o = none := h
    subst ho
    rfl
  · intro txn text h
    simp only [receive_new_currency]
    split
    · rfl
    · next hcond =>
      exfalso
      apply h
      constructor
      · by_contra hlen
        exact hcond (by simp [hlen])
      · by_contra halpha
        simp only [Bool.not_eq_true] at halpha
        exact hcond (by simp [halpha])
  · intro txn
    have e : pyUpper (pyStrip "jpy") = "JPY" := by decide
    simp [receive_new_currency, e, show pyLen "JPY" = 3 from by decide,
      show pyIsAlpha "JPY" = true from by decide]
  · intro txn
    have e : pyUpper (pyStrip "JPY") = "JPY" := by decide
    simp [receive_new_currency, e, show pyLen "JPY" = 3 from by decide,
      show pyIsAlpha "JPY" = true from by decide]
  · intro txn
    have e : pyUpper (pyStrip "jp") = "JP" := by decide
    simp [receive_new_currency, e, show pyLen "JP" = 2 from by decide]

/-- Chunks produced by `splitOnP` contain no separator element. -/
theorem splitOnP_sep_free {α : Type} (p : α → Bool) :
    ∀ l : List α, ∀ w ∈ l.splitOnP p, ∀ c ∈ w, p c = false := by
  intro l
  induction l with
  | nil =>
    intro w hw c hc
    rw [List.splitOnP_nil] at hw
    simp at hw
    subst hw
    simp at hc
  | cons a l ih =>
    intro w hw c hc
    rw [List.splitOnP_cons] at hw
    by_cases ha : p a
    · rw [if_pos ha] at hw
      rcases List.mem_cons.mp hw with rfl | hw
      · simp at hc
      · exact ih w hw c hc
    · rw [if_neg ha] at hw
      rcases hsp : l.splitOnP p with _ | ⟨hd, tl⟩
      · exact absurd hsp (List.splitOnP_ne_nil p l)
      · rw [hsp] at hw
        simp only [List.modifyHead] at hw
        rcases List.mem_cons.mp hw with rfl | hw
        · rcases List.mem_cons.mp hc with rfl | hc
          · exact Bool.eq_false_iff.mpr ha
          · exact ih hd (hsp ▸ List.mem_cons_self hd tl) c hc
        · exact ih w (hsp ▸ List.mem_cons_of_mem hd hw) c hc

/-- Tokens produced by `pyWords` are nonempty and whitespace-free. -/
theorem pyWords_tokens (l : List Char) :
    ∀ w ∈ pyWords l, w ≠ [] ∧ ∀ c ∈ w, c.isWhitespace = false := by
  intro w hw
  unfold pyWords at hw
  have hmem := List.mem_filter.mp hw
  refine ⟨by simpa using hmem.2, ?_⟩
  exact splitOnP_sep_free (·.isWhitespace) l w hmem.1

/-- Joining a two-or-more word list prepends the first word and a space. -/
theorem pyJoinWords_cons_cons (w w' : List Char) (ws : List (List Char)) :
    pyJoinWords (w :: w' :: ws) = w ++ ' ' :: pyJoinWords (w' :: ws) := by
  simp [pyJoinWords, List.intercalate, List.intersperse_cons_cons]

/-- Splitting the space-joined word list recovers the words, provided every
word is nonempty and whitespace-free. -/
theorem pyWords_pyJoinWords :
    ∀ ws : List (List Char),
      (∀ w ∈ ws, w ≠ [] ∧ ∀ c ∈ w, c.isWhitespace = false) →
      pyWords (pyJoinWords ws) = ws := by
  intro ws
  induction ws with
  | nil =>
    intro _
    simp [pyWords, pyJoinWords, List.intercalate, List.splitOnP_nil]
  | cons w ws ih =>
    intro h
    rcases ws with _ | ⟨w', ws'⟩
    · have hw := h w (List.mem_cons_self w [])
      have hjoin : pyJoinWords [w] = w := by
        simp [pyJoinWords, List.intercalate]
      rw [hjoin]
      unfold pyWords
      rw [List.splitOnP_eq_single]
      · simp [hw.1]
      · intro c hc
        simp [hw.2 c hc]
    · have hw := h w (List.mem_cons_self w (w' :: ws'))
      rw [pyJoinWords_cons_cons]
      unfold pyWords
      rw [List.splitOnP_first]
      · rw [List.filter_cons_of_pos (by simpa using hw.1)]
        have := ih (fun x hx => h x (List.mem_cons_of_mem w hx))
        unfold pyWords at this
        rw [this]
      · intro c hc
        simp [hw.2 c hc]
      · decide

/-- Rebuilding a string from its character data is the identity. -/
theorem stringMk_data (s : String) : String.mk s.data = s := by
  cases s
  rfl

/-- A nonempty word list joins to a nonempty character list. -/
theorem pyJoinWords_ne_nil (w : List Char) (ws : List (List Char)) (hw : w ≠ []) :
    pyJoinWords (w :: ws) ≠ [] := by
  rcases ws with _ | ⟨w', ws'⟩
  · simpa [pyJoinWords, List.intercalate] using hw
  · rw [pyJoinWords_cons_cons]
    intro hcontr
    rcases w with _ | ⟨c, cs⟩
    · exact hw rfl
    · simp at hcontr

/-- Counting after filtering keeps the count of an element the filter keeps. -/
theorem count_filter_of_pos {α : Type} [DecidableEq α] (l : List α) (p : α → Bool)
    (c : α) (h : p c = true) : (l.filter p).count c = l.count c := by
  induction l with
  | nil => rfl
  | cons a l ih =>
    by_cases hpa : p a
    · rw [List.filter_cons_of_pos hpa, List.count_cons, List.count_cons, ih]
    · rw [List.filter_cons_of_neg hpa, ih]
      have hac : a ≠ c := fun hcontr => hpa (by rw [hcontr]; exact h)
      have hbc : (a == c) = false := by simpa using hac
      rw [List.count_cons]
      simp [hbc]

/-- Functions agreeing on a list give the same flatMap. -/
theorem flatMap_congr {α β : Type} (l : List α) (f g : α → List β)
    (h : ∀ x ∈ l, f x = g x) : l.flatMap f = l.flatMap g := by
  induction l with
  | nil => rfl
  | cons a l ih =>
    rw [List.flatMap_cons, List.flatMap_cons, h a (List.mem_cons_self a l),
      ih (fun x hx => h x (List.mem_cons_of_mem a hx))]

/-- C4: with pairwise-distinct ids, no empty declared parent id, and
single-level nesting, the hierarchical ordering emits parents in fetch
order each immediately followed by its children in fetch order, appends the
categories whose declared parent id is absent from the set at the end in
fetch order (the spec-side ordering), and each such orphan appears exactly
once in the output. -/
theorem category_ordering_hierarchical (categories : List Category)
    (hids : (categories.map (·.id)).Nodup)
    (hnp : ∀ c ∈ categories, c.parent_id ≠ some "")
    (hsl : ∀ c ∈ categories, ∀ p ∈ categories,
        c.parent_id = some p.id → p.parent_id = none) :
    order_categories_hierarchically categories = specOrderCategories categories ∧
    (∀ c ∈ categories, ∀ pid, c.parent_id = some pid →
      pid ∉ categories.map (·.id) →
      (order_categories_hierarchically categories).count c = 1) := by
  have hpar : categories.filter (fun c => !hasParent c)
      = categories.filter (fun c => c.parent_id.isNone) := by
    apply List.filter_congr
    intro c hc
    cases hpc : c.parent_id with
    | none => simp [hasParent, hpc]
    | some pid =>
      have hne : pid ≠ "" := fun hcontr => hnp c hc (hcontr ▸ hpc)
      simp [hasParent, hpc, hne]
  have hchild : ∀ p : Category,
      categories.filter (fun c => hasParent c && c.parent_id.getD "" == p.id)
        = categories.filter (fun c => c.parent_id == some p.id) := by
    intro p
    apply List.filter_congr
    intro c hc
    cases hpc : c.parent_id with
    | none => simp [hasParent, hpc]
    | some pid =>
      have hne : pid ≠ "" := fun hcontr => hnp c hc (hcontr ▸ hpc)
      simp [hasParent, hpc, hne]
  have hcore : (categories.filter (fun c => !hasParent c)).flatMap
        (fun p => p :: categories.filter
          (fun c => hasParent c && c.parent_id.getD "" == p.id))
      = (categories.filter (fun c => c.parent_id.isNone)).flatMap
        (fun p => p :: categories.filter (fun c => c.parent_id == some p.id)) := by
    rw [hpar]
    exact flatMap_congr _ _ _ (fun p _ => by rw [hchild p])
  have hsub : ∀ c ∈ (categories.filter (fun c => c.parent_id.isNone)).flatMap
      (fun p => p :: categories.filter (fun c => c.parent_id == some p.id)),
      c ∈ categories := by
    intro c hcmem
    rcases List.mem_flatMap.mp hcmem with ⟨p, hp, hcp⟩
    rcases List.mem_cons.mp hcp with rfl | hcf
    · exact List.filter_subset' categories hp
    · exact List.filter_subset' categories hcf
  have hmemcore : ∀ c ∈ categories,
      (c ∈ (categories.filter (fun c => c.parent_id.isNone)).flatMap
          (fun p => p :: categories.filter (fun c => c.parent_id == some p.id)) ↔
        c.parent_id = none ∨
          ∃ pid, c.parent_id = some pid ∧ pid ∈ categories.map (·.id)) := by
    intro c hc
    constructor
    · intro hmem
      rcases List.mem_flatMap.mp hmem with ⟨p, hp, hcp⟩
      rcases List.mem_cons.mp hcp with rfl | hcf
      · left
        have := List.of_mem_filter hp
        simpa using this
      · right
        have hpd := List.of_mem_filter hcf
        have hpe : c.parent_id = some p.id := by simpa using hpd
        have hpmem : p ∈ categories := List.filter_subset' categories hp
        exact ⟨p.id, hpe, List.mem_map_of_mem _ hpmem⟩
    · intro hcase
      rcases hcase with hnone | ⟨pid, hpid, hin⟩
      · apply List.mem_flatMap.mpr
        refine ⟨c, List.mem_filter.mpr ⟨hc, ?_⟩, List.mem_cons_self _ _⟩
        simp [hnone]
      · rcases List.mem_map.mp hin with ⟨p, hpmem, hpid_eq⟩
        have hpnone : p.parent_id = none := hsl c hc p hpmem (by rw [hpid, hpid_eq])
        apply List.mem_flatMap.mpr
        refine ⟨p, List.mem_filter.mpr ⟨hpmem, by simp [hpnone]⟩, ?_⟩
        apply List.mem_cons_of_mem
        exact List.mem_filter.mpr ⟨hc, by simp [hpid, hpid_eq]⟩
  have hseen : ∀ c ∈ categories,
      ((((categories.filter (fun c => c.parent_id.isNone)).flatMap
          (fun p => p :: categories.filter
            (fun c => c.parent_id == some p.id))).map (·.id)).contains c.id = true ↔
        c ∈ (categories.filter (fun c => c.parent_id.isNone)).flatMap
          (fun p => p :: categories.filter (fun c => c.parent_id == some p.id))) := by
    intro c hc
    constructor
    · intro hcont
      have hmm : c.id ∈ ((categories.filter (fun c => c.parent_id.isNone)).flatMap
          (fun p => p :: categories.filter
            (fun c => c.parent_id == some p.id))).map (·.id) := by
        simpa using hcont
      rcases List.mem_map.mp hmm with ⟨d, hd, hde⟩
      have hdc : d = c := List.inj_on_of_nodup_map hids (hsub d hd) hc hde
      exact hdc ▸ hd
    · intro hmem
      simpa using List.mem_map_of_mem (·.id) hmem
  have horphan : categories.filter
        (fun c => !(((categories.filter (fun c => c.parent_id.isNone)).flatMap
          (fun p => p :: categories.filter
            (fun c => c.parent_id == some p.id))).map (·.id)).contains c.id)
      = categories.filter (fun c =>
          match c.parent_id with
          | some pid => !(categories.map (·.id)).contains pid
          | none => false) := by
    apply List.filter_congr
    intro c hc
    show (!(((categories.filter (fun c => c.parent_id.isNone)).flatMap
        (fun p => p :: categories.filter
          (fun c => c.parent_id == some p.id))).map (·.id)).contains c.id)
      = (match c.parent_id with
         | some pid => !(categories.map (·.id)).contains pid
         | none => false)
    cases hpc : c.parent_id with
    | none =>
      have hmem := (hmemcore c hc).mpr (Or.inl hpc)
      have hcont := (hseen c hc).mpr hmem
      rw [hcont]
      rfl
    | some pid =>
      have hmatch : (match (some pid : Option String) with
          | some pid2 => !(categories.map (·.id)).contains pid2
          | none => false) = !(categories.map (·.id)).contains pid := rfl
      by_cases hin : pid ∈ categories.map (·.id)
      · have hmem := (hmemcore c hc).mpr (Or.inr ⟨pid, hpc, hin⟩)
        have hcont := (hseen c hc).mpr hmem
        have hidstrue : (categories.map (·.id)).contains pid = true := by
          simpa using hin
        rw [hmatch, hcont, hidstrue]
      · have hnotmem : c ∉ (categories.filter (fun c => c.parent_id.isNone)).flatMap
            (fun p => p :: categories.filter (fun c => c.parent_id == some p.id)) := by
          intro hmem
          rcases (hmemcore c hc).mp hmem with hnone | ⟨pid2, hpid2, hin2⟩
          · rw [hpc] at hnone
            exact Option.noConfusion hnone
          · rw [hpc] at hpid2
            have heq : pid = pid2 := Option.some.inj hpid2
            exact hin (by rw [heq]; exact hin2)
        have hcont : (((categories.filter (fun c => c.parent_id.isNone)).flatMap
            (fun p => p :: categories.filter
              (fun c => c.parent_id == some p.id))).map (·.id)).contains c.id
            = false := by
          by_contra hcontr
          rw [Bool.not_eq_false] at hcontr
          exact hnotmem ((hseen c hc).mp hcontr)
        have hidsfalse : (categories.map (·.id)).contains pid = false := by
          simpa using hin
        rw [hmatch, hcont, hidsfalse]
  have horder : order_categories_hierarchically categories
      = specOrderCategories categories := by
    simp only [order_categories_hierarchically, specOrderCategories]
    rw [hcore, horphan]
  refine ⟨horder, ?_⟩
  intro c hc pid hpc hnot
  rw [horder]
  simp only [specOrderCategories]
  rw [List.count_append]
  have hnotcore : c ∉ (categories.filter (fun c => c.parent_id.isNone)).flatMap
      (fun p => p :: categories.filter (fun c => c.parent_id == some p.id)) := by
    intro hmem
    rcases (hmemcore c hc).mp hmem with hnone | ⟨pid2, hpid2, hin2⟩
    · rw [hpc] at hnone
      exact Option.noConfusion hnone
    · rw [hpc] at hpid2
      have heq : pid = pid2 := Option.some.inj hpid2
      exact hnot (by rw [heq]; exact hin2)
  have h1 : ((categories.filter (fun c => c.parent_id.isNone)).flatMap
      (fun p => p :: categories.filter
        (fun c => c.parent_id == some p.id))).count c = 0 :=
    List.count_eq_zero.mpr hnotcore
  have hpred : (fun c => match c.parent_id with
      | some pid2 => !(categories.map (·.id)).contains pid2
      | none => false : Category → Bool) c = true := by
    show (match c.parent_id with
        | some pid2 => !(categories.map (·.id)).contains pid2
        | none => false) = true
    have hmatch : (match (some pid : Option String) with
        | some pid2 => !(categories.map (·.id)).contains pid2
        | none => false) = !(categories.map (·.id)).contains pid := rfl
    have hidsfalse : (categories.map (·.id)).contains pid = false := by
      simpa using hnot
    rw [hpc, hmatch, hidsfalse]
    rfl
  have h2 : (categories.filter (fun c => match c.parent_id with
      | some pid2 => !(categories.map (·.id)).contains pid2
      | none => false)).count c = categories.count c :=
    count_filter_of_pos categories _ c hpred
  have h3 : categories.count c = 1 :=
    List.count_eq_one_of_mem (hids.of_map _) hc
  rw [h1, h2, h3]

/-- C4 witness: a child directly follows its parent and an orphan whose
declared parent is absent is appended once at the end. -/
theorem category_ordering_hierarchical_witness :
    order_categories_hierarchically [childCategory, foodCategory, orphanCategory]
      = specOrderCategories [childCategory, foodCategory, orphanCategory] ∧
    (order_categories_hierarchically
        [childCategory, foodCategory, orphanCategory]).count orphanCategory = 1 := by
  have t := category_ordering_hierarchical
    [childCategory, foodCategory, orphanCategory] (by decide) (by decide) (by decide)
  exact ⟨t.1, t.2 orphanCategory (by decide) "cat-9" (by decide) (by decide)⟩

/-- C6: the default account is the first account in fetch order that is
eligible and active; with no active eligible account it is the first
eligible account; with no eligible account at all the entry point replies
with an error, makes no backend call, creates no session and terminates;
and a successfully initialised session carries the default account. -/
theorem default_account_selection :
    (∀ (accounts : List Account) (a : Account),
        accounts.find? (fun x => isEligible x && accountActive x) = some a →
        get_default_account accounts = some a) ∧
    (∀ accounts : List Account,
        accounts.find? (fun x => isEligible x && accountActive x) = none →
        get_default_account accounts = (accounts.filter isEligible).head?) ∧
    (∀ (u : UserData) (accounts : List Account) (categories : List Category)
        (ty args : String),
        accounts.filter isEligible = [] →
        entry_point (some u) accounts categories ty args =
          ⟨[], [.noEligibleAccount], none, .ENDED⟩) ∧
    (∀ (u : UserData) (accounts : List Account) (categories : List Category)
        (s : TxnSession),
        resolve_user_and_setup (some u) accounts categories = .ok s →
        ∃ a, get_default_account accounts = some a ∧
          s.account_id = a.id ∧ s.account_name = a.name) := by
  refine ⟨?_, ?_, ?_, ?_⟩
  · intro accounts a h
    simp only [get_default_account]
    rw [find?_filter, h]
  · intro accounts h
    simp only [get_default_account]
    rw [find?_filter, h]
  · intro u accounts categories ty args h
    have hd : get_default_account accounts = none := by
      unfold get_default_account
      rw [h]
      rfl
    unfold entry_point resolve_user_and_setup
    rw [hd]
  · intro u accounts categories s h
    unfold resolve_user_and_setup at h
    cases hd : get_default_account accounts with
    | none => rw [hd] at h; exact absurd h (by simp)
    | some a =>
      rw [hd] at h
      refine ⟨a, rfl, ?_, ?_⟩ <;>
        · cases h with
          | refl => rfl

/-- C6 witness: a single active cash account is chosen as default, and with
no eligible accounts the entry point terminates with the error reply and no
session. -/
theorem default_account_selection_witness :
    get_default_account [walletAccount] = some walletAccount ∧
    entry_point (some sampleUser) [] [] "expense" "" =
      ⟨[], [.noEligibleAccount], none, .ENDED⟩ :=
  ⟨default_account_selection.1 [walletAccount] walletAccount (by decide),
   default_account_selection.2.2.1 sampleUser [] [] "expense" "" (by decide)⟩

/-- C10: with an empty cached category list, both the quick path of the
entry point and the guided amount handler go directly to the Confirm state
with no category selected. -/
theorem empty_categories_skip_picker :
    (∀ (u : UserData) (accounts : List Account) (ty text : String),
        (∃ a, get_default_account accounts = some a) →
        (∃ amt, (parse_amount_description text).1 = some amt ∧
            pyFloatTruthy amt = true) →
        (entry_point (some u) accounts [] ty text).state = .CONFIRM ∧
        ∃ s, (entry_point (some u) accounts [] ty text).session = some s ∧
          s.category_id = none ∧ s.category_name = none) ∧
    (∀ (txn : TxnSession) (text : String),
        txn.categories = [] → txn.category_id = none → txn.category_name = none →
        (∃ amt, (parse_amount_description text).1 = some amt ∧
            pyFloatTruthy amt = true) →
        (receive_amount (some txn) text).state = .CONFIRM ∧
        ∃ s, (receive_amount (some txn) text).session = some s ∧
          s.category_id = none ∧ s.category_name = none) := by
  constructor
  · rintro u accounts ty text ⟨a, ha⟩ ⟨amt, hamt, htr⟩
    unfold entry_point resolve_user_and_setup
    rw [ha]
    rcases hp : parse_amount_description text with ⟨o, d⟩
    rw [hp] at hamt
    have ho : o = some amt := hamt
    subst ho
    simp only [htr, if_true]
    rcases he : extract_account_and_category d accounts [] with ⟨desc, mAcc, mCat⟩
    have hmc : mCat = none := by
      have := extract_category_nil d accounts
      rw [he] at this
      exact this
    subst hmc
    cases mAcc <;> simp
  · rintro txn text hcats hcid hcname ⟨amt, hamt, htr⟩
    unfold receive_amount
    rcases hp : parse_amount_description text with ⟨o, d⟩
    rw [hp] at hamt
    have ho : o = some amt := hamt
    subst ho
    simp only [htr]
    rw [hcats]
    rcases he : extract_account_and_category d txn.accounts [] with ⟨desc, mAcc, mCat⟩
    have hmc : mCat = none := by
      have := extract_category_nil d txn.accounts
      rw [he] at this
      exact this
    subst hmc
    cases mAcc <;> simp [hcid, hcname, hcats]

/-- C10 witness: a quick-path command with trailing text 50 Coffee and no
categories lands on Confirm with no category selected. -/
theorem empty_categories_skip_picker_witness :
    (entry_point (some sampleUser) [walletAccount] [] "expense" "50 Coffee").state =
      .CONFIRM ∧
    ∃ s, (entry_point (some sampleUser) [walletAccount] [] "expense" "50 Coffee").session =
        some s ∧ s.category_id = none ∧ s.category_name = none :=
  empty_categories_skip_picker.1 sampleUser [walletAccount] "expense" "50 Coffee"
    ⟨walletAccount, by decide⟩ ⟨roundDouble 50 1, by decide, by decide⟩

/-- C5: page k of the category keyboard shows exactly the categories at
positions 9k to 9k+8 of the hierarchical order, three per row, with a Prev
control iff k is positive, a Next control iff a further page exists, and the
always-present new-category and skip actions. -/
theorem category_keyboard_pagination (categories : List Category) (k : Nat) :
    ∃ nav : List Button,
      build_category_keyboard categories k =
        chunks3 ((((order_categories_hierarchically categories).drop (9 * k)).take 9).map
            categoryButton)
          ++ (if nav.isEmpty then [] else [nav])
          ++ [[Button.mk "+ New" "cat:new", Button.mk "Skip" "cat:none"]] ∧
      (Button.mk "< Prev" ("cat:page:" ++ toString (k - 1)) ∈ nav ↔ 0 < k) ∧
      (Button.mk "Next >" ("cat:page:" ++ toString (k + 1)) ∈ nav ↔
        9 * (k + 1) < (order_categories_hierarchically categories).length) ∧
      (chunks3 ((((order_categories_hierarchically categories).drop (9 * k)).take 9).map
          categoryButton)).flatten =
        (((order_categories_hierarchically categories).drop (9 * k)).take 9).map
          categoryButton ∧
      (∀ row ∈ chunks3 ((((order_categories_hierarchically categories).drop (9 * k)).take
          9).map categoryButton), 0 < row.length ∧ row.length ≤ 3) := by
  refine ⟨(if 0 < k then [Button.mk "< Prev" ("cat:page:" ++ toString (k - 1))] else [])
      ++ (if 9 * (k + 1) < (order_categories_hierarchically categories).length then
            [Button.mk "Next >" ("cat:page:" ++ toString (k + 1))] else []),
    ?_, ?_, ?_, chunks3_flatten _, chunks3_rows _⟩
  · simp only [build_category_keyboard]
    have h9 : k * 9 + 9 = 9 * (k + 1) := by ring
    have h9' : k * 9 = 9 * k := by ring
    rw [h9, h9']
  · have hne : Button.mk "< Prev" ("cat:page:" ++ toString (k - 1)) ≠
        Button.mk "Next >" ("cat:page:" ++ toString (k + 1)) := by
      intro hcontr
      have : ("< Prev" : String) = "Next >" := congrArg Button.label hcontr
      exact absurd this (by decide)
    constructor
    · intro hmem
      rcases List.mem_append.mp hmem with hm | hm
      · by_contra hk
        rw [if_neg hk] at hm
        simp at hm
      · by_contra hk
        split at hm
        · exact hne (List.mem_singleton.mp hm)
        · simp at hm
    · intro hk
      rw [if_pos hk]
      exact List.mem_append.mpr (Or.inl (List.mem_singleton.mpr rfl))
  · have hne : Button.mk "Next >" ("cat:page:" ++ toString (k + 1)) ≠
        Button.mk "< Prev" ("cat:page:" ++ toString (k - 1)) := by
      intro hcontr
      have : ("Next >" : String) = "< Prev" := congrArg Button.label hcontr
      exact absurd this (by decide)
    constructor
    · intro hmem
      rcases List.mem_append.mp hmem with hm | hm
      · exfalso
        split at hm
        · exact hne (List.mem_singleton.mp hm)
        · simp at hm
      · by_contra hk
        rw [if_neg hk] at hm
        simp at hm
    · intro hk
      rw [if_pos hk]
      exact List.mem_append.mpr (Or.inr (List.mem_singleton.mpr rfl))

/-- C7: the matcher tokenizes on whitespace; the last token is consumed as
the account match exactly when it case-insensitively equals an account name
(first match in list order, full-token equality); the new last token of the
shortened text is consumed as the category match under the same rule, so an
account match does not block a category match and at most one token of each
kind is consumed; the description is the space-joined remainder.  At the
concrete input 50 Coffee Wallet where Wallet names an account and no
category matches, the matched account is Wallet and the description is
Coffee. -/
theorem entity_matcher_trailing_token_rule :
    (∀ (text : String) (accounts : List Account) (categories : List Category),
      (extract_account_and_category text accounts categories).2.1 =
        (match (pyWords text.data).getLast? with
         | none => none
         | some last => accounts.find? (fun acc => nameMatches acc.name last)) ∧
      (extract_account_and_category text accounts categories).2.2 =
        (match (if (extract_account_and_category text accounts categories).2.1.isSome
                then (pyWords text.data).dropLast
                else pyWords text.data).getLast? with
         | none => none
         | some last => categories.find? (fun cat => nameMatches cat.name last)) ∧
      (extract_account_and_category text accounts categories).1 =
        String.mk (pyJoinWords
          (if (extract_account_and_category text accounts categories).2.2.isSome
           then (if (extract_account_and_category text accounts categories).2.1.isSome
                 then (pyWords text.data).dropLast
                 else pyWords text.data).dropLast
           else (if (extract_account_and_category text accounts categories).2.1.isSome
                 then (pyWords text.data).dropLast
                 else pyWords text.data)))) ∧
    extract_account_and_category "Coffee Wallet" [walletAccount] [foodCategory] =
      ("Coffee", some walletAccount, none) ∧
    (parse_amount_description "50 Coffee Wallet").2 = "Coffee Wallet" ∧
    (entry_point (some sampleUser) [walletAccount] [foodCategory] "expense"
        "50 Coffee Wallet").session.map
        (fun s => (s.account_name, s.description, s.amount)) =
      some ("Wallet", "Coffee", 5000) ∧
    (entry_point (some sampleUser) [walletAccount] [foodCategory] "expense"
        "50 Coffee Wallet").state = .CATEGORY := by
  refine ⟨?_, by decide, by decide, by decide, by decide⟩
  intro text accounts categories
  by_cases ht : text = ""
  · subst ht
    have hw : pyWords ("" : String).data = [] := by decide
    refine ⟨?_, ?_, ?_⟩
    · simp [extract_account_and_category, hw]
    · simp [extract_account_and_category, hw]
    · simp [extract_account_and_category, hw, pyJoinWords, List.intercalate]
  · simp only [extract_account_and_category, if_neg ht]
    cases h0 : (pyWords text.data).getLast? with
    | none =>
      have hnil : pyWords text.data = [] := List.getLast?_eq_none_iff.mp h0
      simp [h0, hnil]
    | some last =>
      cases h1 : List.find? (fun (acc : Account) => nameMatches acc.name last) accounts with
      | none =>
        cases h2 : List.find? (fun (cat : Category) => nameMatches cat.name last)
            categories with
        | none => simp [h0, h1, h2]
        | some cat => simp [h0, h1, h2]
      | some acc =>
        cases h2 : (pyWords text.data).dropLast.getLast? with
        | none => simp [h0, h1, h2]
        | some last2 =>
          cases h3 : List.find? (fun (cat : Category) => nameMatches cat.name last2)
              categories with
          | none => simp [h0, h1, h2, h3]
          | some cat => simp [h0, h1, h2, h3]

/-- C3 counterexample: the matcher is not idempotent.  With accounts named A
and B and input A B, the first application consumes B and returns the
description A; feeding A back in consumes a further account match. -/
theorem entity_matcher_not_idempotent :
    ¬ (∀ (text : String) (accounts : List Account) (categories : List Category),
        (extract_account_and_category
            (extract_account_and_category text accounts categories).1
            accounts categories).2.1 = none ∧
        (extract_account_and_category
            (extract_account_and_category text accounts categories).1
            accounts categories).2.2 = none) := by
  intro h
  have hinst := h "A B" [accountNamedA, accountNamedB] []
  revert hinst
  decide

/-- C3 (amended): the matcher fixes inputs it leaves unmatched: when a call
returns no account match and no category match, re-applying it to the
returned description returns that description unchanged with again no
matches.  (When a token was consumed, the new trailing token may itself name
an entity and be consumed by a second application.) -/
theorem entity_matcher_fixed_point_when_no_match (text : String)
    (accounts : List Account) (categories : List Category) (d : String)
    (h : extract_account_and_category text accounts categories = (d, none, none)) :
    extract_account_and_category d accounts categories = (d, none, none) := by
  by_cases ht : text = ""
  · subst ht
    have hd : d = "" := by
      have := congrArg Prod.fst h
      simpa [extract_account_and_category] using this.symm
    subst hd
    rfl
  · simp only [extract_account_and_category, if_neg ht] at h
    cases h0 : (pyWords text.data).getLast? with
    | none =>
      have hnil : pyWords text.data = [] := List.getLast?_eq_none_iff.mp h0
      simp only [hnil, List.getLast?_nil] at h
      have hd : d = "" := by
        have := congrArg Prod.fst h
        simpa [pyJoinWords, List.intercalate] using this.symm
      subst hd
      rfl
    | some last =>
      simp only [h0] at h
      cases h1 : List.find? (fun (acc : Account) => nameMatches acc.name last) accounts with
      | some acc => simp [h1] at h
      | none =>
        simp only [h1, h0] at h
        cases h2 : List.find? (fun (cat : Category) => nameMatches cat.name last)
            categories with
        | some cat => simp [h2] at h
        | none =>
          simp only [h2] at h
          have hd : String.mk (pyJoinWords (pyWords text.data)) = d :=
            congrArg Prod.fst h
          have hws : pyWords d.data = pyWords text.data := by
            rw [← hd]
            exact pyWords_pyJoinWords (pyWords text.data) (pyWords_tokens text.data)
          have hne : d ≠ "" := by
            rcases hcons : pyWords text.data with _ | ⟨w, ws⟩
            · rw [hcons] at h0
              exact absurd h0 (by simp)
            · rw [← hd, hcons]
              intro hcontr
              have hdata : pyJoinWords (w :: ws) = [] := by
                have := congrArg String.data hcontr
                simpa using this
              exact pyJoinWords_ne_nil w ws
                ((pyWords_tokens text.data w (hcons ▸ List.mem_cons_self w ws)).1) hdata
          simp only [extract_account_and_category, if_neg hne]
          rw [hws]
          simp only [h0, h1, h2]
          rw [hd]

/-- C3 witness: a call that matches nothing returns its input unchanged, and
a second application again matches nothing. -/
theorem entity_matcher_fixed_point_witness :
    extract_account_and_category "Coffee Tea" [walletAccount] [foodCategory] =
      ("Coffee Tea", none, none) :=
  entity_matcher_fixed_point_when_no_match "Coffee Tea" [walletAccount]
    [foodCategory] "Coffee Tea" (by decide)

/-- C8 witness: the re-prompt branches at concrete inputs abc and jp. -/
theorem invalid_inputs_reprompt_witness :
    receive_amount (some sampleSession) "abc" =
      ⟨[], [.invalidAmount], some sampleSession, .AMOUNT⟩ ∧
    receive_new_currency (some sampleSession) "jp" =
      ⟨[], [.invalidCurrency], some sampleSession, .NEW_CURRENCY⟩ :=
  ⟨invalid_inputs_reprompt_without_mutation.1 sampleSession "abc" (by decide),
   invalid_inputs_reprompt_without_mutation.2.1 sampleSession "jp" (by decide)⟩

end Kuberan
